import Mathlib

/-!
Verification of the built-in command execution core of the mesabox POSIX
shell (source: src/src/posix/sh/builtin/mod.rs).  Byte strings (OsString,
Vec<u8> and &[u8] in the source) are embedded as lists of byte values.
The Environment type and its variable/function-table operations live in
the env module of the shell, which is not among the given source files; those
definitions are modelled from the data model of the specification and carry a
doc comment saying so.  Everything else is translated directly from the
source of mod.rs.
-/

/-- Byte strings of the shell core: values, names and raw input, as lists of
byte values. -/
abbrev Bytes : Type := List Nat

/-- Modelled from the spec: one variable-table entry of the Environment,
a value tagged with the exported and read-only flags.  A variable may exist
without a value, because exporting an unset name is legal and the flag is
kept for a future assignment. -/
structure VarEntry where
  value : Option Bytes
  exported : Bool
  readonly : Bool
deriving DecidableEq

/-- Modelled from the spec: EnvFd, the descriptor-binding variant type.  The
dispatcher in mod.rs matches on exactly these bindings: an open file, a raw
inherited descriptor, an owned in-memory piped buffer, and a null sink or
source. -/
inductive EnvFd
  | file (handle : Nat)
  | fd (n : Nat)
  | piped (buf : Bytes)
  | null
deriving DecidableEq

/-- Modelled from the spec: the session Environment: the variable table
(name to value plus flags), the function table (bodies are outside this
core and stand in as numbers), and the descriptor table. -/
structure Environment where
  vars : List (Bytes × VarEntry)
  funcs : List (Bytes × Nat)
  fds : List (Nat × EnvFd)
deriving DecidableEq

/-- Association-list lookup by name, first match wins (names are unique in
the tables of the Environment). -/
def alookup {α : Type} (name : Bytes) : List (Bytes × α) → Option α
  | [] => none
  | e :: rest => if e.1 = name then some e.2 else alookup name rest

/-- Modelled from the spec: the update of the variable table behind set_var.
An existing entry keeps its exported and read-only flags, so a future
assignment inherits the exported flag; an absent name gains a fresh plain
entry. -/
def setVarEntry (name val : Bytes) : List (Bytes × VarEntry) → List (Bytes × VarEntry)
  | [] => [(name, ⟨some val, false, false⟩)]
  | e :: rest =>
    if e.1 = name then (e.1, ⟨some val, e.2.exported, e.2.readonly⟩) :: rest
    else e :: setVarEntry name val rest

/-- Modelled from the spec: the update of the variable table behind
export_var.  An existing entry keeps its value and read-only flag and gains
the exported mark; an absent name gains an entry with no value whose
exported mark takes effect once the variable later acquires a value. -/
def exportVarEntry (name : Bytes) : List (Bytes × VarEntry) → List (Bytes × VarEntry)
  | [] => [(name, ⟨none, true, false⟩)]
  | e :: rest =>
    if e.1 = name then (e.1, ⟨e.2.value, true, e.2.readonly⟩) :: rest
    else e :: exportVarEntry name rest

/-- Modelled from the spec: removal of an entry from a table of the
Environment when the name is present; absence of the name changes nothing. -/
def removeEntry {α : Type} (name : Bytes) : List (Bytes × α) → List (Bytes × α)
  | [] => []
  | e :: rest => if e.1 = name then rest else e :: removeEntry name rest

/-- Modelled from the spec: Environment::set_var. -/
def Environment.set_var (env : Environment) (name val : Bytes) : Environment :=
  { env with vars := setVarEntry name val env.vars }

/-- Modelled from the spec: Environment::export_var. -/
def Environment.export_var (env : Environment) (name : Bytes) : Environment :=
  { env with vars := exportVarEntry name env.vars }

/-- Modelled from the spec: Environment::remove_var. -/
def Environment.remove_var (env : Environment) (name : Bytes) : Environment :=
  { env with vars := removeEntry name env.vars }

/-- Modelled from the spec: Environment::remove_func. -/
def Environment.remove_func (env : Environment) (name : Bytes) : Environment :=
  { env with funcs := removeEntry name env.funcs }

/-- Modelled from the spec: Environment::get_var, the value of a variable
that is present and carries a value. -/
def Environment.get_var (env : Environment) (name : Bytes) : Option Bytes :=
  match alookup name env.vars with
  | some e => e.value
  | none => none

/-- Modelled from the spec: Environment::export_iter, the exported
variables that carry a value, as name-value pairs. -/
def Environment.export_iter (env : Environment) : List (Bytes × Bytes) :=
  env.vars.filterMap (fun e =>
    match e.2.value, e.2.exported with
    | some v, true => some (e.1, v)
    | _, _ => none)

/-- Per-invocation input of a built-in: the argument tokens (the built-in
name already stripped) and the transient name-value overrides scoped to this
invocation. -/
structure ExecData where
  args : List Bytes
  env : List (Bytes × Bytes)

/-- ExportBuiltin::run from mod.rs: every raw argument token is passed whole
to export_var (the source notes that splitting name=value tokens is not
done), and the builtin returns 0. -/
def ExportBuiltin.run (env : Environment) (data : ExecData) : Environment × Nat :=
  (data.args.foldl (fun e a => e.export_var a) env, 0)

/-- UnsetBuiltin::run from mod.rs after clap argument parsing: func is true
when -f was the last of the mutually overriding -f and -v flags.  Every
operand name is removed from the chosen table, in the given order, and the
builtin returns 0 unconditionally. -/
def UnsetBuiltin.run (env : Environment) (func : Bool) (names : List Bytes) :
    Environment × Nat :=
  (names.foldl (fun e n => if func then e.remove_func n else e.remove_var n) env, 0)

/-- ExitBuiltin::run from mod.rs: the body is unimplemented and panics at
once, so no exit status is ever produced; the panic is embedded as none. -/
def ExitBuiltin.run (_env : Environment) (_data : ExecData) : Option Nat := none

/-- The replacement process image that exec transfers control to: program
name, its arguments, and its environment built from scratch. -/
structure ReplaceImage where
  prog : Bytes
  args : List Bytes
  envp : List (Bytes × Bytes)
deriving DecidableEq

/-- ExecBuiltin::run from mod.rs: with no arguments it returns 0 and touches
nothing; otherwise it clears the ambient environment, layers the
exported variables and then the per-invocation overrides, and transfers
control to the replacement image, which never returns normally and is
embedded as the error side. -/
def ExecBuiltin.run (env : Environment) (data : ExecData) :
    Environment × Except ReplaceImage Nat :=
  match data.args with
  | [] => (env, Except.ok 0)
  | name :: rest => (env, Except.error ⟨name, rest, env.export_iter ++ data.env⟩)

/-- BufRead::read_until for the line terminator: the consumed bytes up to
and including the first newline (all of the input when it has none), and the
unconsumed remainder. -/
def readUntilNL : Bytes → Bytes × Bytes
  | [] => ([], [])
  | b :: rest =>
    if b = 10 then ([10], rest)
    else (b :: (readUntilNL rest).1, (readUntilNL rest).2)

/-- The leading run of the byte x is dropped. -/
def dropLeading (x : Nat) : Bytes → Bytes
  | [] => []
  | b :: rest => if b = x then dropLeading x rest else b :: rest

/-- The pop loop of check_backslash in mod.rs: trailing newline bytes are
removed from the buffer. -/
def stripNL (buffer : Bytes) : Bytes := (dropLeading 10 buffer.reverse).reverse

/-- The length of the leading run of the byte x. -/
def countLeading (x : Nat) : Bytes → Nat
  | [] => 0
  | b :: rest => if b = x then countLeading x rest + 1 else 0

/-- The length of the trailing run of the byte x. -/
def trailingCount (x : Nat) (l : Bytes) : Nat := countLeading x l.reverse

/-- The check_backslash closure of ReadBuiltin::run: trailing newlines are
popped, and the returned flag is true when the line is complete, that is
when its last byte is not a backslash or that backslash is itself escaped
(the count of backslashes right before it is odd). -/
def checkBuf (buffer : Bytes) : Bytes × Bool :=
  match (stripNL buffer).reverse with
  | [] => (stripNL buffer, true)
  | c :: rest =>
    if c = 92 then (stripNL buffer, decide (countLeading 92 rest % 2 = 1))
    else (stripNL buffer, true)

/-- The line-acquisition loop of ReadBuiltin::run, with explicit fuel (the
loop consumes input or shrinks the buffer at every pass, so the fuel below
in readLoop always suffices): a chunk is read up to the newline and
appended, the terminator is stripped, and unless raw mode is on or the
completion check passes, the single unescaped trailing backslash is removed
and another chunk is read. -/
def readLoopF (raw : Bool) : Nat → Bytes → Bytes → Bytes × Bytes
  | 0, input, buffer => (buffer, input)
  | fuel + 1, input, buffer =>
    if raw || (checkBuf (buffer ++ (readUntilNL input).1)).2 then
      ((checkBuf (buffer ++ (readUntilNL input).1)).1, (readUntilNL input).2)
    else
      readLoopF raw fuel (readUntilNL input).2
        ((checkBuf (buffer ++ (readUntilNL input).1)).1).dropLast

/-- The line-acquisition loop of ReadBuiltin::run: the assembled logical
line and the unconsumed input. -/
def readLoop (raw : Bool) (input buffer : Bytes) : Bytes × Bytes :=
  readLoopF raw (input.length + buffer.length + 1) input buffer

/-- The split of a byte list at the first byte satisfying p: the bytes
before it, the consumed byte, and the bytes after it. -/
def splitOnFirst (p : Nat → Bool) : Bytes → Option (Bytes × Nat × Bytes)
  | [] => none
  | b :: rest =>
    if p b then some ([], b, rest)
    else
      match splitOnFirst p rest with
      | none => none
      | some (pre, d, post) => some (b :: pre, d, post)

/-- The slice splitn of the source: at most n fields, each of the first
at most n - 1 fields ends at the first unconsumed delimiter, and the final
field absorbs the remainder including any further delimiters. -/
def splitn (p : Nat → Bool) : Nat → Bytes → List Bytes
  | 0, _ => []
  | 1, l => [l]
  | n + 2, l =>
    match splitOnFirst p l with
    | none => [l]
    | some (pre, _, post) => pre :: splitn p (n + 1) post

/-- The delimiters splitn consumes, in order. -/
def splitnSeps (p : Nat → Bool) : Nat → Bytes → Bytes
  | 0, _ => []
  | 1, _ => []
  | n + 2, l =>
    match splitOnFirst p l with
    | none => []
    | some (_, d, post) => d :: splitnSeps p (n + 1) post

/-- Fields interleaved with one consumed delimiter between consecutive
fields. -/
def interleave : List Bytes → Bytes → Bytes
  | [], _ => []
  | f :: _, [] => f
  | f :: fs, d :: ds => f ++ d :: interleave fs ds

/-- The per-field escape resolution of ReadBuiltin::run in non-raw mode: a
backslash makes the following byte literal and is itself removed; a lone
trailing backslash yields nothing. -/
def resolveEscapes : Bytes → Bytes
  | [] => []
  | b :: rest =>
    if b = 92 then
      match rest with
      | [] => []
      | c :: rest2 => c :: resolveEscapes rest2
    else b :: resolveEscapes rest

/-- The name IFS as bytes. -/
def ifsName : Bytes := [73, 70, 83]

/-- The default field separators, space, tab and newline, used when IFS is
unset. -/
def defaultIFS : Bytes := [32, 9, 10]

/-- The field split of ReadBuiltin::run: the assembled line is split with
splitn into at most as many fields as there are variable operands, the
delimiter set being the bytes of IFS, defaulted when IFS is unset. -/
def readFields (env : Environment) (ignoreBackslash : Bool) (vars : List Bytes)
    (input : Bytes) : List Bytes :=
  splitn (fun byte => ((env.get_var ifsName).getD defaultIFS).contains byte)
    vars.length (readLoop ignoreBackslash input []).1

/-- ReadBuiltin::run from mod.rs after clap argument parsing:
ignoreBackslash is the -r flag and vars the operand names, of which clap
requires at least one (none is an argument error).  The logical line is
assembled, split into fields, and field i is assigned to variable i in
order, after escape resolution in non-raw mode; the zip ends at the shorter
list.  The builtin returns 0. -/
def ReadBuiltin.run (env : Environment) (ignoreBackslash : Bool)
    (vars : List Bytes) (input : Bytes) : Except Unit (Environment × Nat) :=
  match vars with
  | [] => Except.error ()
  | _ :: _ =>
    let fields := readFields env ignoreBackslash vars input
    let env2 := (vars.zip fields).foldl
      (fun e pr =>
        e.set_var pr.1 (if ignoreBackslash then pr.2 else resolveEscapes pr.2)) env
    Except.ok (env2, 0)

/-- Modelled from the spec: the single diagnostic line the dispatcher
reports a built-in error with; the Display of the error type renders
program name, then the bytes of the text colon-space-error-colon-space,
then the message. -/
def errorLine (prog msg : Bytes) : Bytes :=
  prog ++ [58, 32, 101, 114, 114, 111, 114, 58, 32] ++ msg

/-- InProcessCommand::execute for Builtin in mod.rs, at its error boundary:
a body result that is an exit code is propagated unchanged, and a body
error is converted into one diagnostic line appended to the error stream
plus exit code 1; the session continues either way. -/
def Builtin.execute (prog : Bytes) (errStream : List Bytes)
    (res : Except Bytes Nat) : List Bytes × Nat :=
  match res with
  | Except.ok code => (errStream, code)
  | Except.error msg => (errStream ++ [errorLine prog msg], 1)

/-- The empty session Environment. -/
def env0 : Environment := ⟨[], [], []⟩

/-- A session with a read-only variable x of value 1 and a plain variable y
of value 2. -/
def envReadOnly : Environment :=
  ⟨[([120], ⟨some [49], false, true⟩), ([121], ⟨some [50], false, false⟩)], [], []⟩

/-- A session where IFS is the single byte colon. -/
def envColonIFS : Environment :=
  ⟨[([73, 70, 83], ⟨some [58], false, false⟩)], [], []⟩

/-- A session with a plain variable y of value z. -/
def envWithY : Environment :=
  ⟨[([121], ⟨some [122], false, false⟩)], [], []⟩

/-- A session with IFS bound to colon, one shell function and one
descriptor binding. -/
def envFrame : Environment :=
  ⟨[([73, 70, 83], ⟨some [58], false, false⟩)], [([102], 7)], [(0, EnvFd.null)]⟩

/-- The environment envFrame after read assigns a to the variable x. -/
def envFrameRes : Environment :=
  ⟨[([73, 70, 83], ⟨some [58], false, false⟩), ([120], ⟨some [97], false, false⟩)],
    [([102], 7)], [(0, EnvFd.null)]⟩
theorem readUntilNL_length (l : Bytes) :
    (readUntilNL l).1.length + (readUntilNL l).2.length = l.length := by
  induction l with
  | nil => rfl
  | cons b rest ih =>
    simp only [readUntilNL]
    split
    · simp only [List.length_cons, List.length_nil]
      omega
    · simp only [List.length_cons]
      omega

theorem dropLeading_length_le (x : Nat) (l : Bytes) :
    (dropLeading x l).length ≤ l.length := by
  induction l with
  | nil => exact Nat.le_refl _
  | cons b rest ih =>
    simp only [dropLeading]
    split
    · exact Nat.le_trans ih (by simp)
    · exact Nat.le_refl _

theorem stripNL_length_le (l : Bytes) : (stripNL l).length ≤ l.length := by
  unfold stripNL
  rw [List.length_reverse]
  calc (dropLeading 10 l.reverse).length ≤ l.reverse.length := dropLeading_length_le _ _
    _ = l.length := List.length_reverse _

theorem checkBuf_fst (b : Bytes) : (checkBuf b).1 = stripNL b := by
  unfold checkBuf
  split
  · rfl
  · split <;> rfl

theorem checkBuf_false_ne_nil (b : Bytes) (h : (checkBuf b).2 = false) :
    stripNL b ≠ [] := by
  intro hnil
  unfold checkBuf at h
  rw [hnil] at h
  simp at h

theorem checkBuf_snd (b : Bytes) :
    (checkBuf b).2 = decide (trailingCount 92 (stripNL b) % 2 = 0) := by
  unfold checkBuf trailingCount
  cases h : (stripNL b).reverse with
  | nil => simp [countLeading]
  | cons c rest =>
    by_cases hc : c = 92
    · subst hc
      show decide (countLeading 92 rest % 2 = 1) =
        decide ((countLeading 92 rest + 1) % 2 = 0)
      rw [decide_eq_decide]
      omega
    · simp [countLeading, hc]
theorem readLoop_measure (input buffer : Bytes)
    (hX : (checkBuf (buffer ++ (readUntilNL input).1)).2 = false) :
    (readUntilNL input).2.length +
      (((checkBuf (buffer ++ (readUntilNL input).1)).1).dropLast).length <
      input.length + buffer.length := by
  have hne := checkBuf_false_ne_nil _ hX
  have hfst := checkBuf_fst (buffer ++ (readUntilNL input).1)
  have hlen1 := readUntilNL_length input
  have hlen2 := stripNL_length_le (buffer ++ (readUntilNL input).1)
  have hpos : 1 ≤ (stripNL (buffer ++ (readUntilNL input).1)).length := by
    cases hs : stripNL (buffer ++ (readUntilNL input).1) with
    | nil => exact absurd hs hne
    | cons a as => simp
  rw [hfst, List.length_dropLast]
  simp only [List.length_append] at hlen2
  omega

theorem readLoopF_congr (raw : Bool) (f1 : Nat) :
    ∀ (f2 : Nat) (input buffer : Bytes),
    input.length + buffer.length < f1 → input.length + buffer.length < f2 →
    readLoopF raw f1 input buffer = readLoopF raw f2 input buffer := by
  induction f1 with
  | zero => intro f2 input buffer h1 h2; omega
  | succ f ih =>
    intro f2 input buffer h1 h2
    cases f2 with
    | zero => omega
    | succ g =>
      simp only [readLoopF]
      split
      · rfl
      · rename_i hcond
        have hX : (checkBuf (buffer ++ (readUntilNL input).1)).2 = false := by
          simp only [Bool.or_eq_true, not_or, Bool.not_eq_true] at hcond
          exact hcond.2
        have hm := readLoop_measure input buffer hX
        exact ih g _ _ (by omega) (by omega)

theorem readLoop_step (raw : Bool) (input buffer : Bytes) :
    readLoop raw input buffer =
      if raw || (checkBuf (buffer ++ (readUntilNL input).1)).2 then
        ((checkBuf (buffer ++ (readUntilNL input).1)).1, (readUntilNL input).2)
      else readLoop raw (readUntilNL input).2
        ((checkBuf (buffer ++ (readUntilNL input).1)).1).dropLast := by
  unfold readLoop
  have hstep : readLoopF raw (input.length + buffer.length + 1) input buffer =
      if raw || (checkBuf (buffer ++ (readUntilNL input).1)).2 then
        ((checkBuf (buffer ++ (readUntilNL input).1)).1, (readUntilNL input).2)
      else readLoopF raw (input.length + buffer.length) (readUntilNL input).2
        ((checkBuf (buffer ++ (readUntilNL input).1)).1).dropLast := rfl
  rw [hstep]
  by_cases h : (raw || (checkBuf (buffer ++ (readUntilNL input).1)).2) = true
  · rw [if_pos h, if_pos h]
  · rw [if_neg h, if_neg h]
    have hX : (checkBuf (buffer ++ (readUntilNL input).1)).2 = false := by
      simp only [Bool.or_eq_true, not_or, Bool.not_eq_true] at h
      exact h.2
    have hm := readLoop_measure input buffer hX
    exact readLoopF_congr raw _ _ _ _ (by omega) (by omega)
theorem splitOnFirst_spec (p : Nat → Bool) :
    ∀ (l pre : Bytes) (d : Nat) (post : Bytes),
      splitOnFirst p l = some (pre, d, post) →
      l = pre ++ d :: post ∧ p d = true ∧ ∀ b ∈ pre, p b = false := by
  intro l
  induction l with
  | nil => intro pre d post h; simp [splitOnFirst] at h
  | cons b rest ih =>
    intro pre d post h
    simp only [splitOnFirst] at h
    by_cases hb : p b = true
    · rw [if_pos hb] at h
      simp only [Option.some.injEq, Prod.mk.injEq] at h
      obtain ⟨h1, h2, h3⟩ := h
      subst h1; subst h2; subst h3
      exact ⟨rfl, hb, by simp⟩
    · rw [if_neg hb] at h
      cases hrec : splitOnFirst p rest with
      | none => rw [hrec] at h; simp at h
      | some t =>
        obtain ⟨pre2, d2, post2⟩ := t
        rw [hrec] at h
        simp only [Option.some.injEq, Prod.mk.injEq] at h
        obtain ⟨e1, e2, e3⟩ := ih pre2 d2 post2 hrec
        obtain ⟨h1, h2, h3⟩ := h
        subst h1; subst h2; subst h3
        refine ⟨by rw [List.cons_append, e1], e2, ?_⟩
        intro x hx
        rcases List.mem_cons.mp hx with hxb | hxp
        · subst hxb
          simpa using hb
        · exact e3 x hxp

theorem splitn_one (p : Nat → Bool) (l : Bytes) : splitn p 1 l = [l] := rfl

theorem splitnSeps_one (p : Nat → Bool) (l : Bytes) : splitnSeps p 1 l = [] := rfl

theorem splitn_cons2_none (p : Nat → Bool) (m : Nat) (l : Bytes)
    (h : splitOnFirst p l = none) : splitn p (m + 2) l = [l] := by
  unfold splitn
  rw [h]

theorem splitn_cons2_some (p : Nat → Bool) (m : Nat) (l pre : Bytes) (d : Nat)
    (post : Bytes) (h : splitOnFirst p l = some (pre, d, post)) :
    splitn p (m + 2) l = pre :: splitn p (m + 1) post := by
  conv_lhs => unfold splitn
  rw [h]

theorem splitnSeps_cons2_none (p : Nat → Bool) (m : Nat) (l : Bytes)
    (h : splitOnFirst p l = none) : splitnSeps p (m + 2) l = [] := by
  unfold splitnSeps
  rw [h]

theorem splitnSeps_cons2_some (p : Nat → Bool) (m : Nat) (l pre : Bytes) (d : Nat)
    (post : Bytes) (h : splitOnFirst p l = some (pre, d, post)) :
    splitnSeps p (m + 2) l = d :: splitnSeps p (m + 1) post := by
  conv_lhs => unfold splitnSeps
  rw [h]

theorem splitn_ne_nil (p : Nat → Bool) (m : Nat) (l : Bytes) :
    splitn p (m + 1) l ≠ [] := by
  cases m with
  | zero => simp [splitn_one]
  | succ k =>
    cases hsp : splitOnFirst p l with
    | none => rw [splitn_cons2_none p k l hsp]; simp
    | some t =>
      obtain ⟨pre, d, post⟩ := t
      rw [splitn_cons2_some p k l pre d post hsp]
      simp
theorem splitn_spec (p : Nat → Bool) :
    ∀ (n : Nat) (l : Bytes),
      interleave (splitn p (n + 1) l) (splitnSeps p (n + 1) l) = l ∧
      (splitnSeps p (n + 1) l).length + 1 = (splitn p (n + 1) l).length ∧
      (splitn p (n + 1) l).length ≤ n + 1 ∧
      (∀ d ∈ splitnSeps p (n + 1) l, p d = true) ∧
      (∀ f ∈ (splitn p (n + 1) l).dropLast, ∀ b ∈ f, p b = false) := by
  intro n
  induction n with
  | zero =>
    intro l
    rw [splitn_one, splitnSeps_one]
    refine ⟨rfl, rfl, by simp, by simp, by simp⟩
  | succ m ih =>
    intro l
    rw [show m + 1 + 1 = m + 2 from rfl]
    cases hsp : splitOnFirst p l with
    | none =>
      rw [splitn_cons2_none p m l hsp, splitnSeps_cons2_none p m l hsp]
      refine ⟨rfl, rfl, by simp, by simp, by simp⟩
    | some t =>
      obtain ⟨pre, d, post⟩ := t
      rw [splitn_cons2_some p m l pre d post hsp,
        splitnSeps_cons2_some p m l pre d post hsp]
      obtain ⟨e1, e2, e3⟩ := splitOnFirst_spec p l pre d post hsp
      obtain ⟨i1, i2, i3, i4, i5⟩ := ih post
      obtain ⟨f0, F2, hF⟩ :=
        List.exists_cons_of_ne_nil (splitn_ne_nil p m post)
      refine ⟨?_, ?_, ?_, ?_, ?_⟩
      · show pre ++ d :: interleave (splitn p (m + 1) post)
            (splitnSeps p (m + 1) post) = l
        rw [i1, e1]
      · simp only [List.length_cons]
        omega
      · simp only [List.length_cons]
        omega
      · intro x hx
        rcases List.mem_cons.mp hx with hxd | hxs
        · subst hxd; exact e2
        · exact i4 x hxs
      · rw [hF]
        intro f hf
        rcases List.mem_cons.mp (by
          have : (pre :: f0 :: F2).dropLast = pre :: (f0 :: F2).dropLast := rfl
          rw [this] at hf
          exact hf) with hfp | hfd
        · subst hfp; exact e3
        · rw [← hF] at hfd
          exact i5 f hfd
theorem zip_map_fst_take {α β : Type} :
    ∀ (l1 : List α) (l2 : List β),
      (l1.zip l2).map Prod.fst = l1.take l2.length := by
  intro l1
  induction l1 with
  | nil => intro l2; simp
  | cons a t ih =>
    intro l2
    cases l2 with
    | nil => simp
    | cons b t2 => simp [ih t2]

theorem alookup_setVarEntry_ne (name m val : Bytes) (h : m ≠ name) :
    ∀ l, alookup name (setVarEntry m val l) = alookup name l := by
  intro l
  induction l with
  | nil => simp [setVarEntry, alookup, h]
  | cons e t ih =>
    by_cases he : e.1 = m
    · simp only [setVarEntry, if_pos he, alookup]
      rw [he]
      rw [if_neg h, if_neg h]
    · simp only [setVarEntry, if_neg he, alookup]
      by_cases hn : e.1 = name
      · rw [if_pos hn, if_pos hn]
      · rw [if_neg hn, if_neg hn]
        exact ih

theorem set_var_funcs (env : Environment) (name val : Bytes) :
    (env.set_var name val).funcs = env.funcs := rfl

theorem set_var_fds (env : Environment) (name val : Bytes) :
    (env.set_var name val).fds = env.fds := rfl

theorem foldl_set_var_funcs (v : Bytes × Bytes → Bytes) :
    ∀ (ps : List (Bytes × Bytes)) (env : Environment),
      (ps.foldl (fun e pr => e.set_var pr.1 (v pr)) env).funcs = env.funcs := by
  intro ps
  induction ps with
  | nil => intro env; rfl
  | cons q t ih =>
    intro env
    simp only [List.foldl_cons]
    rw [ih, set_var_funcs]

theorem foldl_set_var_fds (v : Bytes × Bytes → Bytes) :
    ∀ (ps : List (Bytes × Bytes)) (env : Environment),
      (ps.foldl (fun e pr => e.set_var pr.1 (v pr)) env).fds = env.fds := by
  intro ps
  induction ps with
  | nil => intro env; rfl
  | cons q t ih =>
    intro env
    simp only [List.foldl_cons]
    rw [ih, set_var_fds]

theorem foldl_set_var_frame (v : Bytes × Bytes → Bytes) :
    ∀ (ps : List (Bytes × Bytes)) (env : Environment) (name : Bytes),
      name ∉ ps.map Prod.fst →
      alookup name (ps.foldl (fun e pr => e.set_var pr.1 (v pr)) env).vars =
        alookup name env.vars := by
  intro ps
  induction ps with
  | nil => intro env name _; rfl
  | cons q t ih =>
    intro env name hname
    simp only [List.map_cons, List.mem_cons, not_or] at hname
    simp only [List.foldl_cons]
    rw [ih _ name hname.2]
    exact alookup_setVarEntry_ne name q.1 (v q) (fun he => hname.1 he.symm) _
/-- C1: the claim that export name=value sets the variable name to value and
marks it exported fails on the code: ExportBuiltin::run passes the whole
token to export_var without splitting at the equals sign, so the invocation
export x=1 on an empty session marks a variable literally named x=1 as
exported with no value, x itself stays unset, and the builtin returns 0. -/
theorem export_token_not_split :
    (ExportBuiltin.run env0 ⟨[[120, 61, 49]], []⟩).1.get_var [120] = none ∧
    (ExportBuiltin.run env0 ⟨[[120, 61, 49]], []⟩).1.vars =
      [([120, 61, 49], ⟨none, true, false⟩)] ∧
    (ExportBuiltin.run env0 ⟨[[120, 61, 49]], []⟩).2 = 0 :=
  ⟨rfl, rfl, rfl⟩

/-- C2: the claim that unset -v keeps a read-only operand and yields nonzero
status fails on the code: on a session where x is read-only with value 1 and
y is plain, unset -v x y removes both variables and returns status 0. -/
theorem unset_removes_readonly_status_zero :
    UnsetBuiltin.run envReadOnly false [[120], [121]] = (⟨[], [], []⟩, 0) ∧
    envReadOnly.get_var [120] = some [49] ∧
    (alookup [120] envReadOnly.vars).map VarEntry.readonly = some true :=
  ⟨rfl, rfl, rfl⟩

/-- C3: the claim that read fails and assigns nothing at immediate
end-of-input fails on the code: ReadBuiltin::run never checks for EOF, so
read x on empty input returns status 0 and assigns the empty value to x. -/
theorem read_eof_status_zero_assigns :
    ReadBuiltin.run env0 false [[120]] [] =
      Except.ok (⟨[([120], ⟨some [], false, false⟩)], [], []⟩, 0) := rfl

/-- C4 counterexample: with input a-newline and variables x y, the second
variable y is not set to an empty value as the claim states; it keeps its
previous value z. -/
theorem read_missing_fields_counterexample :
    (ReadBuiltin.run envWithY false [[120], [121]] [97, 10]).map
      (fun r => r.1.get_var [121]) = Except.ok (some [122]) ∧
    some [122] ≠ (some ([] : Bytes)) :=
  ⟨rfl, by decide⟩

/-- C4 amended: when field splitting produces fewer fields than variable
operands, every variable beyond the last produced field receives no
assignment at all: any name outside the assigned operand prefix keeps its
exact variable-table entry. -/
theorem read_missing_fields_left_unchanged (env : Environment) (raw : Bool)
    (vars : List Bytes) (input : Bytes) (name : Bytes)
    (hvars : vars ≠ [])
    (hname : name ∉ vars.take (readFields env raw vars input).length) :
    (ReadBuiltin.run env raw vars input).map (fun r => alookup name r.1.vars) =
      Except.ok (alookup name env.vars) := by
  cases vars with
  | nil => exact absurd rfl hvars
  | cons v vs =>
    simp only [ReadBuiltin.run, Except.map]
    congr 1
    apply foldl_set_var_frame
    rw [zip_map_fst_take]
    exact hname

/-- C4 witness: read x y on input a-newline in the empty session leaves the
absent variable y absent. -/
theorem read_missing_fields_left_unchanged_witness :
    (ReadBuiltin.run env0 false [[120], [121]] [97, 10]).map
      (fun r => alookup [121] r.1.vars) = Except.ok (alookup [121] env0.vars) :=
  read_missing_fields_left_unchanged env0 false [[120], [121]] [97, 10] [121]
    (by decide) (by decide)

/-- C5: in non-raw mode the line-acquisition loop reads and appends another
line exactly when the count of consecutive trailing backslash bytes of the
current line, after stripping the line terminator, is odd, first stripping
that single trailing backslash; and on input abc-backslash-newline-def-newline
with one variable x, read assigns abcdef to x. -/
theorem read_continuation_odd_trailing_backslash :
    (∀ (input buffer : Bytes),
      readLoop false input buffer =
        if trailingCount 92 (stripNL (buffer ++ (readUntilNL input).1)) % 2 = 1 then
          readLoop false (readUntilNL input).2
            (stripNL (buffer ++ (readUntilNL input).1)).dropLast
        else (stripNL (buffer ++ (readUntilNL input).1), (readUntilNL input).2)) ∧
    ReadBuiltin.run env0 false [[120]] [97, 98, 99, 92, 10, 100, 101, 102, 10] =
      Except.ok (⟨[([120], ⟨some [97, 98, 99, 100, 101, 102], false, false⟩)],
        [], []⟩, 0) := by
  constructor
  · intro input buffer
    rw [readLoop_step, Bool.false_or, checkBuf_snd, checkBuf_fst]
    simp only [decide_eq_true_eq]
    by_cases hp :
      trailingCount 92 (stripNL (buffer ++ (readUntilNL input).1)) % 2 = 1
    · rw [if_pos hp, if_neg (by omega)]
    · rw [if_neg hp, if_pos (by omega)]
  · rfl

/-- C6: the field split of read is a bounded split that loses no data: the
fields interleaved with the consumed delimiters reconstruct the input
exactly, there are at most as many fields as operands and one more field
than consumed delimiters, every consumed delimiter is in the delimiter set,
and every field but the last is delimiter-free; and with IFS the colon,
input a:b:c-newline and variables x y, read assigns a to x and b:c to y. -/
theorem read_bounded_split_reconstructs :
    (∀ (p : Nat → Bool) (n : Nat) (l : Bytes),
      interleave (splitn p (n + 1) l) (splitnSeps p (n + 1) l) = l ∧
      (splitnSeps p (n + 1) l).length + 1 = (splitn p (n + 1) l).length ∧
      (splitn p (n + 1) l).length ≤ n + 1 ∧
      (∀ d ∈ splitnSeps p (n + 1) l, p d = true) ∧
      (∀ f ∈ (splitn p (n + 1) l).dropLast, ∀ b ∈ f, p b = false)) ∧
    ReadBuiltin.run envColonIFS false [[120], [121]] [97, 58, 98, 58, 99, 10] =
      Except.ok (⟨[([73, 70, 83], ⟨some [58], false, false⟩),
        ([120], ⟨some [97], false, false⟩),
        ([121], ⟨some [98, 58, 99], false, false⟩)], [], []⟩, 0) :=
  ⟨splitn_spec, rfl⟩

/-- C7: the claim that exit terminates the shell with a resolved status
fails on the code: ExitBuiltin::run is unimplemented and panics, producing
no exit status for any invocation, here shown at exit 0 and at exit with no
argument. -/
theorem exit_produces_no_status :
    ExitBuiltin.run env0 ⟨[[48]], []⟩ = none ∧
    ExitBuiltin.run env0 ⟨[], []⟩ = none :=
  ⟨rfl, rfl⟩

/-- C8: at the dispatcher boundary a body error is reported as exactly one
diagnostic line of the form program-name colon error colon message appended
to the error stream together with exit code 1, and a body success propagates
the exit code unchanged with nothing written. -/
theorem builtin_error_boundary :
    (∀ (prog msg : Bytes) (stream : List Bytes),
      Builtin.execute prog stream (Except.error msg) =
        (stream ++ [errorLine prog msg], 1)) ∧
    (∀ (prog : Bytes) (stream : List Bytes) (code : Nat),
      Builtin.execute prog stream (Except.ok code) = (stream, code)) :=
  ⟨fun _ _ _ => rfl, fun _ _ _ => rfl⟩

/-- C9: exec with an empty argument list returns exit status 0 and leaves
the whole Environment, variable table, function table and descriptor table,
unchanged, for every session and every set of per-invocation overrides. -/
theorem exec_empty_args_noop :
    (∀ (env : Environment) (overrides : List (Bytes × Bytes)),
      ExecBuiltin.run env ⟨[], overrides⟩ = (env, Except.ok 0)) ∧
    ExecBuiltin.run envFrame ⟨[], [([97], [98])]⟩ = (envFrame, Except.ok 0) :=
  ⟨fun _ _ => rfl, rfl⟩

/-- C10: a successful read leaves the function table and the descriptor
table unchanged, and every variable whose name is not among the operands,
IFS included, keeps its exact variable-table entry. -/
theorem read_frame_effect (env : Environment) (raw : Bool) (vars : List Bytes)
    (input : Bytes) (name : Bytes) (env2 : Environment) (c : Nat)
    (hrun : ReadBuiltin.run env raw vars input = Except.ok (env2, c))
    (hname : name ∉ vars) :
    env2.funcs = env.funcs ∧ env2.fds = env.fds ∧
      alookup name env2.vars = alookup name env.vars := by
  cases vars with
  | nil => simp [ReadBuiltin.run] at hrun
  | cons v vs =>
    simp only [ReadBuiltin.run, Except.ok.injEq, Prod.mk.injEq] at hrun
    obtain ⟨h1, h2⟩ := hrun
    subst h1
    refine ⟨foldl_set_var_funcs _ _ _, foldl_set_var_fds _ _ _, ?_⟩
    apply foldl_set_var_frame
    rw [zip_map_fst_take]
    intro hmem
    exact hname (List.take_subset _ _ hmem)

/-- C10 witness: read x on input a-newline against the session envFrame
leaves the function table, the descriptor table and the binding of IFS
untouched. -/
theorem read_frame_effect_witness :
    envFrameRes.funcs = envFrame.funcs ∧ envFrameRes.fds = envFrame.fds ∧
      alookup [73, 70, 83] envFrameRes.vars = alookup [73, 70, 83] envFrame.vars :=
  read_frame_effect envFrame false [[120]] [97, 10] [73, 70, 83] envFrameRes 0 rfl
    (by decide)
